import Mathlib

/-!
Verification of the conversation synchronization and reconciliation engine of
the ChatApp client (`frontend/src/hooks/useAppState.tsx` and the typing handler
in `frontend/src/components/ChatArea.tsx`).

JavaScript `Record<string, T>` objects are embedded as association lists
`List (String × T)` (preserving key presence and insertion order); optional
fields as `Option`; JS `Set<string>` as duplicate-free `List String` in
insertion order.  Falsiness of strings (`!target`, `!msg.channel`) is modelled
explicitly: the empty string is falsy.
-/

/-- A chat message as in the `Message` interface of `useAppState.tsx`.
The source field `from` is called `sender` here (`from` is a Lean keyword);
`sent?: boolean` (absent = falsy) is a plain `Bool`; `reactions` maps an emoji
to the list of usernames, with `[]` standing for both absent and empty (the
code only ever uses `msg.reactions || \x7b\x7d`, which collapses the two). -/
structure Message where
  sender : String
  message : String
  time : String
  channel : Option String
  sent : Bool
  reactions : List (String × List String)
deriving DecidableEq, Repr

/-- The Conversation Store: `messages : Record<string, Message[]>`. -/
abbrev Store := List (String × List Message)

/-- Read positions: `lastReadPositions : Record<string, number>`. -/
abbrev ReadPos := List (String × Nat)

/-- Typing registry: `typingUsers : Record<string, Set<string>>`. -/
abbrev TypingReg := List (String × List String)

/-- Lookup with default in a JS record: `m[k] !== undefined ? m[k] : d`. -/
def lookupD {α : Type} (m : List (String × α)) (k : String) (d : α) : α :=
  match m with
  | [] => d
  | (k1, v) :: rest => if k1 = k then v else lookupD rest k d

/-- Key presence in a JS record: `k in m`. -/
def hasK {α : Type} (m : List (String × α)) (k : String) : Bool :=
  match m with
  | [] => false
  | (k1, _) :: rest => decide (k1 = k) || hasK rest k

/-- Update of a JS record, `m[k] = v`: replace the value in place if the key is
present (keys are unique in states built by the code), append otherwise. -/
def putK {α : Type} (m : List (String × α)) (k : String) (v : α) : List (String × α) :=
  match m with
  | [] => [(k, v)]
  | (k1, v1) :: rest => if k1 = k then (k, v) :: rest else (k1, v1) :: putK rest k v

/-- Removal of a key from a JS record: `delete m[k]`. -/
def dropK {α : Type} (m : List (String × α)) (k : String) : List (String × α) :=
  match m with
  | [] => []
  | (k1, v1) :: rest => if k1 = k then dropK rest k else (k1, v1) :: dropK rest k

/-- The deduplication predicate of the polling merge:
`m.from === msg.from && m.message === msg.message && m.time === msg.time`. -/
def sameMsg (a b : Message) : Bool :=
  decide (a.sender = b.sender) && decide (a.message = b.message) && decide (a.time = b.time)

/-- Direct-record test `msg.channel === "direct" || !msg.channel` — a record
counts as peer-to-peer when its channel tag is `"direct"`, absent, or the (falsy)
empty string. -/
def isDirectRecord (c : Option String) : Bool :=
  match c with
  | none => true
  | some s => decide (s = "direct") || decide (s = "")

/-- Classification of a fetched record into a target conversation key
(lines 467–483 of `useAppState.tsx`): `none` means the record is skipped
(a self-sent direct message). -/
def classify (cu : String) (msg : Message) : Option String :=
  if isDirectRecord msg.channel then
    if msg.sender = cu then none else some msg.sender
  else msg.channel

/-- The entry pushed by the merge for a genuinely new record:
`\x7bfrom, message, time, channel, sent: msg.from === currentUser.username,
reactions: msg.reactions || \x7b\x7d\x7d`. -/
def mergeEntry (cu : String) (msg : Message) : Message :=
  { sender := msg.sender, message := msg.message, time := msg.time,
    channel := msg.channel, sent := decide (msg.sender = cu),
    reactions := msg.reactions }

/-- One iteration of the `data.messages.forEach` body of the polling merge
(lines 464–522 of `useAppState.tsx`).  Returns the updated store and the
notifications dispatched (conversation key paired with the fetched record):
a notification fires exactly when a record is appended and its sender is not
the local identity. -/
def mergeOne (cu : String) (st : Store) (msg : Message) : Store × List (String × Message) :=
  match classify cu msg with
  | none => (st, [])
  | some target =>
    if target = "" then (st, [])
    else
      let cur := lookupD st target []
      if cur.any (fun m => sameMsg m msg) then (st, [])
      else
        (putK st target (cur ++ [mergeEntry cu msg]),
         if msg.sender = cu then [] else [(target, msg)])

/-- The whole `setMessages` updater of a successful polling cycle: fold the
fetched batch through `mergeOne`, collecting notifications in order. -/
def mergeBatch (cu : String) (st : Store) (batch : List Message) : Store × List (String × Message) :=
  match batch with
  | [] => (st, [])
  | m :: rest =>
    let r := mergeOne cu st m
    let rr := mergeBatch cu r.1 rest
    (rr.1, r.2 ++ rr.2)

/-- Result of the `/get-messages` fetch as seen by the polling callback:
either the promise rejected (network error, caught at line 526) or it resolved
with a status string and an optional messages array. -/
inductive FetchResult where
  | networkError
  | ok (status : String) (messages : Option (List Message))
deriving DecidableEq

/-- One polling cycle (the `setInterval` callback, lines 444–529): the store
is merged only when `data.status === "success" && data.messages`; any other
outcome, and a network error, leave the store alone and dispatch nothing. -/
def pollCycle (cu : String) (st : Store) (res : FetchResult) : Store × List (String × Message) :=
  match res with
  | .networkError => (st, [])
  | .ok status msgs =>
    if status = "success" then
      match msgs with
      | some batch => mergeBatch cu st batch
      | none => (st, [])
    else (st, [])

/-- Sent-message test `const isSent = msg.from === currentUser?.username || msg.sent` — with no
current user, `currentUser?.username` is `undefined` and never equals a
string, so only the `sent` flag remains. -/
def isSentView (cu : Option String) (m : Message) : Bool :=
  (match cu with
   | some u => decide (m.sender = u)
   | none => false) || m.sent

/-- Unread count for one conversation, exactly as derived in the `unreadCounts`
memo (lines 102–114): messages at `index >= lastRead` that are not "sent". -/
def unreadCount (cu : Option String) (msgs : List Message) (lastRead : Nat) : Nat :=
  ((msgs.enum).filter (fun p => !(isSentView cu p.2) && decide (lastRead ≤ p.1))).length

/-- The whole derived `unreadCounts` record: one entry per key of `messages`,
each computed from the sequence of that key and its read cursor (default 0). -/
def unreadCounts (cu : Option String) (messages : Store) (lrp : ReadPos) : ReadPos :=
  messages.map (fun e => (e.1, unreadCount cu e.2 (lookupD lrp e.1 0)))

/-- Modelled from the spec: the unread-count formula the spec states,
`count(messages[cursor:] where sender != localIdentity)`; compared below with
the `unreadCount` of the code. -/
def specUnread (u : String) (msgs : List Message) (cursor : Nat) : Nat :=
  ((msgs.drop cursor).filter (fun m => decide (m.sender ≠ u))).length

/-- Read marking `markAsRead(target)` (lines 282–285): set the read cursor of `target` to
the current length of its sequence. -/
def markAsRead (messages : Store) (lrp : ReadPos) (target : String) : ReadPos :=
  putK lrp target (lookupD messages target []).length

/-- Set insertion `new Set(s).add(u)` in insertion order: append unless already present. -/
def addMem (l : List String) (u : String) : List String :=
  if u ∈ l then l else l ++ [u]

/-- Set removal `s.delete(u)`: remove the username from the set. -/
def removeMem (l : List String) (u : String) : List String :=
  l.filter (fun x => decide (x ≠ u))

/-- Typing update `setTyping(target, isTyping)` (lines 303–323): ensure a set exists for the
key, add or delete `currentUser?.username || ""`, then prune the key if the
set became empty. -/
def setTyping (cu : Option String) (reg : TypingReg) (target : String) (isTyping : Bool) : TypingReg :=
  let uname := cu.getD ""
  let cur := lookupD reg target []
  let cur1 := if isTyping then addMem cur uname else removeMem cur uname
  if cur1 = [] then dropK reg target else putK reg target cur1

/-- The operations that ever touch the typing registry: `setTyping` calls and
the wholesale clear performed by `logout`. -/
inductive TypingOp where
  | setT (cu : Option String) (target : String) (isTyping : Bool)
  | clearAll
deriving DecidableEq

/-- Apply one typing-registry operation. -/
def applyTypingOp (reg : TypingReg) (op : TypingOp) : TypingReg :=
  match op with
  | .setT cu target b => setTyping cu reg target b
  | .clearAll => []

/-- Every reachable typing registry: the initial registry is `\x7b\x7d` and only
`applyTypingOp` ever replaces it. -/
def runTyping (ops : List TypingOp) : TypingReg :=
  ops.foldl applyTypingOp []

/-- The typing side of `ChatArea.tsx`: the registry plus the pending
3-second expiry timeout; `pending = some target` records the conversation key
captured by the scheduled `setTyping(target, false)` callback. -/
structure TypingClient where
  reg : TypingReg
  pending : Option String

/-- Input handler `handleInputChange` (ChatArea.tsx lines 78–94): on any input with a truthy
target, register the local user as typing, cancel the previous expiry timeout
and schedule a fresh one for this target. -/
def handleInputChange (cu : Option String) (s : TypingClient) (target : String) : TypingClient :=
  if target = "" then s
  else { reg := setTyping cu s.reg target true, pending := some target }

/-- The scheduled expiry timeout fires (after 3 s without further input):
`setTyping(target, false)` for the captured target. -/
def fireTypingTimeout (cu : Option String) (s : TypingClient) : TypingClient :=
  match s.pending with
  | some target => { reg := setTyping cu s.reg target false, pending := none }
  | none => s

/-- How the remote send settles, as seen by `sendMessage`: the fetch resolved
with some status (non-success is only logged) or it threw (caught, logged and
re-thrown at lines 426–429). -/
inductive SendOutcome where
  | resolved (status : String)
  | netError
deriving DecidableEq

/-- What `sendMessage` does control-flow-wise: throw `"User not logged in"`,
or complete, with `raised = true` when the caught network error is re-thrown
to the caller. -/
inductive SendResult where
  | notLoggedIn
  | completed (raised : Bool)
deriving DecidableEq, Repr

/-- The optimistic local copy composed at lines 366–375:
`\x7bfrom: username, message: text, time: now, sent: true, reactions: \x7b\x7d\x7d`. -/
def optimisticEntry (u text now : String) : Message :=
  { sender := u, message := text, time := now, channel := none, sent := true,
    reactions := [] }

/-- Send operation `sendMessage(text, target, isChannel)` (lines 357–432): with no identity,
throw; otherwise append the optimistic copy to `messages[target]` first, then
issue the remote call — whose outcome never touches the store (`isChannel`
only selects the endpoint). -/
def sendMessage (cu : Option String) (st : Store) (text target now : String)
    (_isChannel : Bool) (outcome : SendOutcome) : Store × SendResult :=
  match cu with
  | none => (st, .notLoggedIn)
  | some u =>
    let st1 := putK st target (lookupD st target [] ++ [optimisticEntry u text now])
    match outcome with
    | .resolved _ => (st1, .completed false)
    | .netError => (st1, .completed true)

/-- Join operation `joinChannel(channelName)` (lines 183–234): require an identity, require
tracker `status === "success"` (else throw); the WebPeer call only logs.  The
channel list, its empty sequence and zero cursor are installed only when the
channel is not already in the list. -/
def joinChannel (cu : Option String) (channels : List String) (messages : Store)
    (lrp : ReadPos) (ch : String) (trackerStatus : String) :
    Except String (List String × Store × ReadPos) :=
  match cu with
  | none => .error "User not logged in"
  | some _ =>
    if trackerStatus = "success" then
      .ok (if channels.contains ch then (channels, messages, lrp)
           else (channels ++ [ch], putK messages ch [], putK lrp ch 0))
    else .error "Failed to join channel"

/-- The synchronization loop and its surroundings, as far as the Conversation
Store is concerned: the React state `currentUser`, the store, whether the
polling interval is installed, and an in-flight `/get-messages` fetch together
with the username its closure captured. -/
structure LoopState where
  user : Option String
  store : Store
  timerActive : Bool
  inflight : Option String
deriving DecidableEq, Repr

/-- Events of the single-threaded event loop driving the synchronization
machinery. -/
inductive LoopEvent where
  | login (u : String)
  | tick
  | resolve (res : FetchResult)
  | logoutEv
deriving DecidableEq

/-- One event-loop step.
`login`: identity created, the polling `useEffect` installs the interval.
`tick`: the interval fires and starts a fetch capturing the closed-over
username (only while the timer is installed).
`resolve`: an in-flight fetch settles; the callback (lines 460–525) applies a
successful batch through `setMessages` unconditionally — nothing checks
whether the identity is still present.
`logoutEv`: `logout` (lines 287–301) clears the store and cancels the
interval, but does not abort an in-flight fetch. -/
def stepEv (s : LoopState) (e : LoopEvent) : LoopState :=
  match e with
  | .login u => { user := some u, store := s.store, timerActive := true, inflight := s.inflight }
  | .tick =>
    if s.timerActive then
      match s.user, s.inflight with
      | some u, none => { s with inflight := some u }
      | _, _ => s
    else s
  | .resolve res =>
    match s.inflight with
    | some u => { s with inflight := none, store := (pollCycle u s.store res).1 }
    | none => s
  | .logoutEv => { user := none, store := [], timerActive := false, inflight := s.inflight }

/-- Run a trace of event-loop events. -/
def runLoop (s : LoopState) (tr : List LoopEvent) : LoopState :=
  tr.foldl stepEv s

/-- The freshly rendered provider: no identity, empty store, no timer. -/
def initLoopState : LoopState :=
  { user := none, store := [], timerActive := false, inflight := none }

/-- A concrete logged-in loop state with a `/get-messages` fetch in flight. -/
def inflightState : LoopState :=
  { user := some "alice", store := [], timerActive := true, inflight := some "alice" }

/-- Sample inbound direct message from `bob`. -/
def msgBob : Message :=
  { sender := "bob", message := "hey", time := "T1", channel := some "direct",
    sent := false, reactions := [] }

/-- Sample inbound channel broadcast from `carol` tagged `general`. -/
def msgCarol : Message :=
  { sender := "carol", message := "yo", time := "T2", channel := some "general",
    sent := false, reactions := [] }

/-- Sample record whose channel tag is the empty string — truthiness makes the
code treat it as a direct message. -/
def msgEmptyChan : Message :=
  { sender := "carol", message := "yo", time := "T3", channel := some "",
    sent := false, reactions := [] }

/-- Sample self-sent direct record (as echoed back by the endpoint). -/
def msgSelf : Message :=
  { sender := "alice", message := "hi", time := "T0", channel := none,
    sent := false, reactions := [] }

/-! ### Lemmas about the record-map primitives -/

theorem lookupD_putK_self {α : Type} (m : List (String × α)) (k : String) (v d : α) :
    lookupD (putK m k v) k d = v := by
  induction m with
  | nil => simp [putK, lookupD]
  | cons hd tl ih =>
    obtain ⟨k1, v1⟩ := hd
    by_cases h : k1 = k <;> simp [putK, lookupD, h, ih]

theorem lookupD_putK_ne {α : Type} (m : List (String × α)) (k k1 : String) (v d : α)
    (h : k1 ≠ k) : lookupD (putK m k v) k1 d = lookupD m k1 d := by
  have hks : ¬ (k = k1) := fun hc => h hc.symm
  induction m with
  | nil => simp [putK, lookupD, hks]
  | cons hd tl ih =>
    obtain ⟨k2, v2⟩ := hd
    by_cases h2 : k2 = k
    · subst h2
      simp [putK, lookupD, hks]
    · by_cases h3 : k2 = k1
      · simp [putK, lookupD, h2, h3, h]
      · simp [putK, lookupD, h2, h3, ih]

theorem lookupD_dropK_self {α : Type} (m : List (String × α)) (k : String) (d : α) :
    lookupD (dropK m k) k d = d := by
  induction m with
  | nil => simp [dropK, lookupD]
  | cons hd tl ih =>
    obtain ⟨k1, v1⟩ := hd
    by_cases h : k1 = k <;> simp [dropK, lookupD, h, ih]

theorem mem_putK {α : Type} (m : List (String × α)) (k : String) (v : α)
    (p : String × α) (h : p ∈ putK m k v) : p ∈ m ∨ p = (k, v) := by
  induction m with
  | nil => simp [putK] at h; simp [h]
  | cons hd tl ih =>
    obtain ⟨k1, v1⟩ := hd
    by_cases h1 : k1 = k
    · simp [putK, h1] at h
      rcases h with h | h
      · right; simp [h]
      · left; simp [h]
    · simp [putK, h1] at h
      rcases h with h | h
      · left; simp [h]
      · rcases ih h with h2 | h2
        · left; simp [h2]
        · right; exact h2

theorem mem_dropK {α : Type} (m : List (String × α)) (k : String)
    (p : String × α) (h : p ∈ dropK m k) : p ∈ m := by
  induction m with
  | nil => simp [dropK] at h
  | cons hd tl ih =>
    obtain ⟨k1, v1⟩ := hd
    by_cases h1 : k1 = k
    · simp [dropK, h1] at h
      exact List.mem_cons_of_mem _ (ih h)
    · simp [dropK, h1] at h
      rcases h with h | h
      · exact h ▸ List.mem_cons_self _ _
      · exact List.mem_cons_of_mem _ (ih h)

theorem dropK_of_hasK_false {α : Type} (m : List (String × α)) (k : String)
    (h : hasK m k = false) : dropK m k = m := by
  induction m with
  | nil => simp [dropK]
  | cons hd tl ih =>
    obtain ⟨k1, v1⟩ := hd
    simp [hasK] at h
    simp [dropK, h.1, ih h.2]

/-! ### Idempotence of the polling merge (C1) -/

/-- A record is "handled" in a store when merging it again would be a no-op:
whatever target it classifies to already contains a matching entry (or it is
skipped altogether). -/
def handled (cu : String) (st : Store) (msg : Message) : Prop :=
  ∀ target, classify cu msg = some target → target ≠ "" →
    (lookupD st target []).any (fun m => sameMsg m msg) = true

theorem mergeOne_of_handled (cu : String) (st : Store) (msg : Message)
    (h : handled cu st msg) : mergeOne cu st msg = (st, []) := by
  unfold mergeOne
  cases hc : classify cu msg with
  | none => rfl
  | some target =>
    by_cases ht : target = ""
    · simp [ht]
    · simp [ht, h target hc ht]

theorem lookupD_mergeOne_extends (cu : String) (st : Store) (msg : Message) (k : String) :
    ∃ t, lookupD (mergeOne cu st msg).1 k [] = lookupD st k [] ++ t := by
  unfold mergeOne
  cases hc : classify cu msg with
  | none => exact ⟨[], by simp⟩
  | some target =>
    by_cases ht : target = ""
    · exact ⟨[], by simp [ht]⟩
    · simp only [ht, if_false]
      by_cases hdup : (lookupD st target []).any (fun m => sameMsg m msg) = true
      · exact ⟨[], by simp [hdup]⟩
      · simp only [Bool.not_eq_true] at hdup
        by_cases hk : k = target
        · subst hk
          exact ⟨[mergeEntry cu msg], by simp [hdup, lookupD_putK_self]⟩
        · exact ⟨[], by simp [hdup, lookupD_putK_ne _ _ _ _ _ hk]⟩

theorem handled_mergeOne_self (cu : String) (st : Store) (msg : Message) :
    handled cu (mergeOne cu st msg).1 msg := by
  intro target hc ht
  unfold mergeOne
  rw [hc]
  simp only [ht, if_false]
  by_cases hdup : (lookupD st target []).any (fun m => sameMsg m msg) = true
  · simp [hdup]
  · simp only [Bool.not_eq_true] at hdup
    simp only [hdup, Bool.false_eq_true, if_false]
    rw [lookupD_putK_self]
    simp only [List.any_append, List.any_cons, List.any_nil, Bool.or_false]
    have : sameMsg (mergeEntry cu msg) msg = true := by
      simp [sameMsg, mergeEntry]
    simp [this]

theorem handled_mergeOne_mono (cu : String) (st : Store) (msg m2 : Message)
    (h : handled cu st msg) : handled cu (mergeOne cu st m2).1 msg := by
  intro target hc ht
  obtain ⟨t, hext⟩ := lookupD_mergeOne_extends cu st m2 target
  rw [hext, List.any_append, h target hc ht, Bool.true_or]

theorem handled_mergeBatch_mono (cu : String) (msg : Message) :
    ∀ (batch : List Message) (st : Store), handled cu st msg →
      handled cu (mergeBatch cu st batch).1 msg := by
  intro batch
  induction batch with
  | nil => intro st h; exact h
  | cons m rest ih =>
    intro st h
    exact ih (mergeOne cu st m).1 (handled_mergeOne_mono cu st msg m h)

theorem handled_all_after_mergeBatch (cu : String) :
    ∀ (batch : List Message) (st : Store) (msg : Message), msg ∈ batch →
      handled cu (mergeBatch cu st batch).1 msg := by
  intro batch
  induction batch with
  | nil => intro st msg h; simp at h
  | cons m rest ih =>
    intro st msg h
    rcases List.mem_cons.mp h with h | h
    · subst h
      exact handled_mergeBatch_mono cu msg rest (mergeOne cu st msg).1
        (handled_mergeOne_self cu st msg)
    · exact ih (mergeOne cu st m).1 msg h

theorem mergeBatch_of_all_handled (cu : String) :
    ∀ (batch : List Message) (st : Store),
      (∀ msg ∈ batch, handled cu st msg) → (mergeBatch cu st batch).1 = st := by
  intro batch
  induction batch with
  | nil => intro st _; rfl
  | cons m rest ih =>
    intro st h
    have h1 : mergeOne cu st m = (st, []) :=
      mergeOne_of_handled cu st m (h m (List.mem_cons_self m rest))
    show (mergeBatch cu (mergeOne cu st m).1 rest).1 = st
    rw [h1]
    exact ih st (fun msg hm => h msg (List.mem_cons_of_mem m hm))

/-- C1: merging a fetched batch into the Conversation Store is idempotent —
applying the same batch twice yields the same store (hence the same per-key
message sequences) as applying it once; duplicates, identified by
(sender, body, timestamp), are discarded rather than appended. -/
theorem mergeBatch_idempotent (cu : String) (st : Store) (batch : List Message) :
    (mergeBatch cu (mergeBatch cu st batch).1 batch).1 = (mergeBatch cu st batch).1 :=
  mergeBatch_of_all_handled cu batch (mergeBatch cu st batch).1
    (fun msg hm => handled_all_after_mergeBatch cu batch st msg hm)

/-! ### The derived unread counts (C4) and failed cycles (C5) -/

theorem filter_enumFrom_eq_filter_drop (P : Message → Bool) :
    ∀ (l : List Message) (n c : Nat),
      ((l.enumFrom n).filter (fun p => P p.2 && decide (c ≤ p.1))).length
        = ((l.drop (c - n)).filter P).length := by
  intro l
  induction l with
  | nil => intro n c; simp
  | cons m rest ih =>
    intro n c
    rw [List.enumFrom_cons]
    by_cases h : c ≤ n
    · rw [show c - n = 0 by omega, List.drop_zero]
      have h2 : c - (n + 1) = 0 := by omega
      cases hp : P m
      · simp [List.filter_cons, hp, ih, h2]
      · simp [List.filter_cons, hp, h, ih, h2]
    · rw [show c - n = (c - (n + 1)) + 1 by omega, List.drop_succ_cons]
      simp only [List.filter_cons, h, decide_False, Bool.and_false, if_false]
      exact ih (n + 1) c

theorem unreadCount_eq_drop (cu : Option String) (msgs : List Message) (c : Nat) :
    unreadCount cu msgs c = ((msgs.drop c).filter (fun m => !(isSentView cu m))).length := by
  have h := filter_enumFrom_eq_filter_drop (fun m => !(isSentView cu m)) msgs 0 c
  simpa [unreadCount, List.enum] using h

theorem unreadCount_len_zero (cu : Option String) (msgs : List Message) :
    unreadCount cu msgs msgs.length = 0 := by
  rw [unreadCount_eq_drop, List.drop_length]
  rfl

theorem unreadCount_eq_specUnread (u : String) (msgs : List Message) (c : Nat)
    (hinv : ∀ m ∈ msgs, m.sent = true → m.sender = u) :
    unreadCount (some u) msgs c = specUnread u msgs c := by
  rw [unreadCount_eq_drop]
  unfold specUnread
  congr 1
  apply List.filter_congr
  intro m hm
  have hm2 : m ∈ msgs := List.drop_subset c msgs hm
  by_cases hs : m.sender = u
  · simp [isSentView, hs]
  · have hsent : m.sent = false := by
      cases hms : m.sent
      · rfl
      · exact absurd (hinv m hm2 hms) hs
    simp [isSentView, hs, hsent]

theorem lookupD_unreadCounts (cu : Option String) (messages : Store) (lrp : ReadPos)
    (k : String) (h : hasK messages k = true) :
    lookupD (unreadCounts cu messages lrp) k 0
      = unreadCount cu (lookupD messages k []) (lookupD lrp k 0) := by
  induction messages with
  | nil => simp [hasK] at h
  | cons hd tl ih =>
    obtain ⟨k1, v⟩ := hd
    by_cases h1 : k1 = k
    · subst h1
      simp [unreadCounts, lookupD]
    · have h2 : hasK tl k = true := by simpa [hasK, h1] using h
      simp only [unreadCounts, List.map_cons, lookupD, h1, if_false]
      exact ih h2

/-- The reachability invariant used for C4: every message in the store carries
`sent = true` only if it was authored by the local identity; it holds of the
empty store, and (below) every store operation of the code preserves it. -/
def sentInv (cu : String) (st : Store) : Prop :=
  ∀ k : String, ∀ m ∈ lookupD st k [], m.sent = true → m.sender = cu

theorem sentInv_mergeOne (cu : String) (st : Store) (msg : Message)
    (h : sentInv cu st) : sentInv cu (mergeOne cu st msg).1 := by
  intro k m hm hsent
  unfold mergeOne at hm
  cases hc : classify cu msg with
  | none => rw [hc] at hm; exact h k m hm hsent
  | some target =>
    rw [hc] at hm
    by_cases ht : target = ""
    · simp only [ht, if_true] at hm
      exact h k m hm hsent
    · simp only [ht, if_false] at hm
      by_cases hdup : (lookupD st target []).any (fun m2 => sameMsg m2 msg) = true
      · simp only [hdup, if_true] at hm
        exact h k m hm hsent
      · simp only [Bool.not_eq_true] at hdup
        simp only [hdup, Bool.false_eq_true, if_false] at hm
        by_cases hk : k = target
        · subst hk
          rw [lookupD_putK_self] at hm
          rcases List.mem_append.mp hm with hm1 | hm1
          · exact h k m hm1 hsent
          · simp only [List.mem_singleton] at hm1
            subst hm1
            simp only [mergeEntry] at hsent
            simp only [mergeEntry]
            exact of_decide_eq_true hsent
        · rw [lookupD_putK_ne _ _ _ _ _ hk] at hm
          exact h k m hm hsent

theorem sentInv_mergeBatch (cu : String) :
    ∀ (batch : List Message) (st : Store), sentInv cu st →
      sentInv cu (mergeBatch cu st batch).1 := by
  intro batch
  induction batch with
  | nil => intro st h; exact h
  | cons m rest ih =>
    intro st h
    exact ih (mergeOne cu st m).1 (sentInv_mergeOne cu st m h)

theorem sentInv_sendMessage (u : String) (st : Store) (text target now : String)
    (isCh : Bool) (outcome : SendOutcome) (h : sentInv u st) :
    sentInv u (sendMessage (some u) st text target now isCh outcome).1 := by
  have hstore : (sendMessage (some u) st text target now isCh outcome).1
      = putK st target (lookupD st target [] ++ [optimisticEntry u text now]) := by
    cases outcome <;> rfl
  rw [hstore]
  intro k m hm hsent
  by_cases hk : k = target
  · subst hk
    rw [lookupD_putK_self] at hm
    rcases List.mem_append.mp hm with hm1 | hm1
    · exact h k m hm1 hsent
    · simp only [List.mem_singleton] at hm1
      subst hm1
      rfl
  · rw [lookupD_putK_ne _ _ _ _ _ hk] at hm
    exact h k m hm hsent

/-- C3: a fetched record whose channel tag is absent or `"direct"` and whose
sender equals the local identity is skipped before deduplication — the merge
leaves every conversation unchanged and dispatches nothing for it. -/
theorem mergeOne_self_skip (cu : String) (st : Store) (msg : Message)
    (hch : msg.channel = none ∨ msg.channel = some "direct") (hs : msg.sender = cu) :
    mergeOne cu st msg = (st, []) := by
  have hd : isDirectRecord msg.channel = true := by
    rcases hch with h | h <;> simp [isDirectRecord, h]
  unfold mergeOne classify
  simp [hd, hs]

/-- Witness for C3 at a concrete self-sent record. -/
theorem mergeOne_self_skip_witness :
    (msgSelf.channel = none ∨ msgSelf.channel = some "direct") ∧ msgSelf.sender = "alice" ∧
    mergeOne "alice" [("bob", [msgBob])] msgSelf = ([("bob", [msgBob])], []) :=
  ⟨Or.inl rfl, rfl, mergeOne_self_skip "alice" [("bob", [msgBob])] msgSelf (Or.inl rfl) rfl⟩

/-- C4: for every store key, the exposed unread count is exactly the derived
value `count(messages[cursor:] where sender != localIdentity)` (under the
reachability invariant that `sent` flags only local messages — see `sentInv`),
and immediately after `markAsRead` the unread count of that key is 0. -/
theorem unread_derived_markRead (u k : String) (messages : Store) (lrp : ReadPos)
    (hk : hasK messages k = true)
    (hinv : ∀ m ∈ lookupD messages k [], m.sent = true → m.sender = u) :
    lookupD (unreadCounts (some u) messages lrp) k 0
        = specUnread u (lookupD messages k []) (lookupD lrp k 0) ∧
    lookupD (unreadCounts (some u) messages (markAsRead messages lrp k)) k 0 = 0 := by
  constructor
  · rw [lookupD_unreadCounts _ _ _ _ hk]
    exact unreadCount_eq_specUnread u _ _ hinv
  · rw [lookupD_unreadCounts _ _ _ _ hk]
    unfold markAsRead
    rw [lookupD_putK_self]
    exact unreadCount_len_zero _ _

/-- Witness for C4: one unread inbound message from `bob`, cursor 0. -/
theorem unread_derived_markRead_witness :
    hasK [("bob", [msgBob])] "bob" = true ∧
    (∀ m ∈ lookupD [("bob", [msgBob])] "bob" [], m.sent = true → m.sender = "alice") ∧
    (lookupD (unreadCounts (some "alice") [("bob", [msgBob])] []) "bob" 0
        = specUnread "alice" (lookupD [("bob", [msgBob])] "bob" [])
            (lookupD ([] : ReadPos) "bob" 0) ∧
     lookupD (unreadCounts (some "alice") [("bob", [msgBob])]
        (markAsRead [("bob", [msgBob])] [] "bob")) "bob" 0 = 0) :=
  ⟨by decide, by decide,
   unread_derived_markRead "alice" "bob" [("bob", [msgBob])] [] (by decide) (by decide)⟩

/-- C5: a failed polling cycle — network error or `status != "success"` — is a
no-op: the store is unchanged, no notification is dispatched, and (read
positions being untouched by the cycle altogether) the derived unread counts
are unchanged. -/
theorem pollCycle_failure_noop (cu : String) (st : Store) (res : FetchResult)
    (cu2 : Option String) (lrp : ReadPos)
    (h : res = FetchResult.networkError ∨
         ∃ s m, res = FetchResult.ok s m ∧ s ≠ "success") :
    pollCycle cu st res = (st, []) ∧
    unreadCounts cu2 (pollCycle cu st res).1 lrp = unreadCounts cu2 st lrp := by
  have h1 : pollCycle cu st res = (st, []) := by
    rcases h with h | ⟨s, m, hres, hs⟩
    · rw [h]
      rfl
    · rw [hres]
      simp [pollCycle, hs]
  exact ⟨h1, by rw [h1]⟩

/-- Witness for C5 at a non-success response. -/
theorem pollCycle_failure_noop_witness :
    (FetchResult.ok "error" none = FetchResult.networkError ∨
      ∃ s m, FetchResult.ok "error" none = FetchResult.ok s m ∧ s ≠ "success") ∧
    (pollCycle "alice" [("bob", [msgBob])] (FetchResult.ok "error" none)
        = ([("bob", [msgBob])], []) ∧
     unreadCounts (some "alice")
        (pollCycle "alice" [("bob", [msgBob])] (FetchResult.ok "error" none)).1 []
        = unreadCounts (some "alice") [("bob", [msgBob])] []) :=
  ⟨Or.inr ⟨"error", none, rfl, by decide⟩,
   pollCycle_failure_noop "alice" [("bob", [msgBob])] _ (some "alice") []
     (Or.inr ⟨"error", none, rfl, by decide⟩)⟩

/-! ### Optimistic send (C6) and the channel-classification frame (C7) -/

/-- C6: with an identity present, `sendMessage` appends
`\x7bfrom: username, message: text, sent: true\x7d` to the target conversation
before the remote call is issued — the resulting store is the same for every
remote outcome, so a remote failure leaves the appended local copy in place
(no rollback) — and a caught network error is re-raised to the caller. -/
theorem sendMessage_optimistic (u : String) (st : Store) (text target now : String)
    (isCh : Bool) (outcome : SendOutcome) :
    (sendMessage (some u) st text target now isCh outcome).1
        = putK st target (lookupD st target [] ++ [optimisticEntry u text now]) ∧
    lookupD (sendMessage (some u) st text target now isCh outcome).1 target []
        = lookupD st target [] ++ [optimisticEntry u text now] ∧
    (sendMessage (some u) st text target now isCh SendOutcome.netError).2
        = SendResult.completed true := by
  have hstore : (sendMessage (some u) st text target now isCh outcome).1
      = putK st target (lookupD st target [] ++ [optimisticEntry u text now]) := by
    cases outcome <;> rfl
  exact ⟨hstore, by rw [hstore, lookupD_putK_self], rfl⟩

/-- C7 as stated is refuted by a record whose channel tag is the empty string:
`\x7bfrom: "carol", message: "yo", channel: ""\x7d` carries a channel tag other than
`"direct"`, yet JS falsiness classifies it as a direct message, so the merge
appends it to `Conversation Store["carol"]` — the conversation of the sender is not
left untouched. -/
theorem mergeOne_emptyChannel_counterexample :
    msgEmptyChan.channel = some "" ∧ "" ≠ "direct" ∧
    msgEmptyChan.sender = "carol" ∧ "carol" ≠ "" ∧
    lookupD (mergeOne "alice" [] msgEmptyChan).1 "carol" [] ≠
      lookupD ([] : Store) "carol" [] := by
  refine ⟨rfl, by decide, rfl, by decide, ?_⟩
  decide

/-- C7 amended: for every fetched record carrying a NON-EMPTY channel tag other
than `"direct"`, the merge appends at most one entry to the store at that tag
and leaves the sequence of every other conversation key unchanged (in
particular the one keyed by the sender). -/
theorem mergeOne_channel_frame (cu : String) (st : Store) (msg : Message) (c : String)
    (hc : msg.channel = some c) (hd : c ≠ "direct") (he : c ≠ "") :
    (∀ k, k ≠ c → lookupD (mergeOne cu st msg).1 k [] = lookupD st k []) ∧
    (lookupD (mergeOne cu st msg).1 c []).length ≤ (lookupD st c []).length + 1 := by
  have hdir : isDirectRecord msg.channel = false := by
    rw [hc]
    simp [isDirectRecord, hd, he]
  have hcl : classify cu msg = some c := by
    unfold classify
    rw [hdir, hc]
    rfl
  unfold mergeOne
  rw [hcl]
  simp only [he, if_false]
  by_cases hdup : (lookupD st c []).any (fun m2 => sameMsg m2 msg) = true
  · rw [if_pos hdup]
    exact ⟨fun k _ => rfl, Nat.le_succ _⟩
  · rw [if_neg hdup]
    constructor
    · intro k hk
      exact lookupD_putK_ne _ _ _ _ _ hk
    · rw [lookupD_putK_self, List.length_append]
      simp

/-- Witness for the amended C7 at a concrete channel broadcast. -/
theorem mergeOne_channel_frame_witness :
    msgCarol.channel = some "general" ∧ "general" ≠ "direct" ∧ "general" ≠ "" ∧
    (lookupD (mergeOne "alice" [("bob", [msgBob])] msgCarol).1 "carol" []
        = lookupD [("bob", [msgBob])] "carol" [] ∧
     (lookupD (mergeOne "alice" [("bob", [msgBob])] msgCarol).1 "general" []).length
        ≤ (lookupD [("bob", [msgBob])] "general" []).length + 1) :=
  ⟨rfl, by decide, by decide,
   (mergeOne_channel_frame "alice" [("bob", [msgBob])] msgCarol "general" rfl
      (by decide) (by decide)).1 "carol" (by decide),
   (mergeOne_channel_frame "alice" [("bob", [msgBob])] msgCarol "general" rfl
      (by decide) (by decide)).2⟩

/-! ### Typing registry (C8, C9) -/

theorem lookupD_of_hasK_false {α : Type} (m : List (String × α)) (k : String) (d : α)
    (h : hasK m k = false) : lookupD m k d = d := by
  induction m with
  | nil => rfl
  | cons hd tl ih =>
    obtain ⟨k1, v1⟩ := hd
    simp only [hasK, Bool.or_eq_false_iff, decide_eq_false_iff_not] at h
    simp [lookupD, h.1, ih h.2]

theorem mem_prune_nonempty (reg : TypingReg) (t : String) (c : List String)
    (p : String × List String)
    (h : ∀ q ∈ reg, q.2 ≠ ([] : List String))
    (hp : p ∈ if c = [] then dropK reg t else putK reg t c) :
    p.2 ≠ ([] : List String) := by
  by_cases hemp : c = []
  · rw [if_pos hemp] at hp
    exact h p (mem_dropK _ _ _ hp)
  · rw [if_neg hemp] at hp
    rcases mem_putK _ _ _ _ hp with h1 | h1
    · exact h p h1
    · subst h1
      exact hemp

theorem setTyping_preserves_nonempty (cu : Option String) (reg : TypingReg)
    (target : String) (b : Bool) (h : ∀ p ∈ reg, p.2 ≠ ([] : List String)) :
    ∀ p ∈ setTyping cu reg target b, p.2 ≠ ([] : List String) := by
  intro p hp
  simp only [setTyping] at hp
  exact mem_prune_nonempty reg target _ p h hp

theorem runTyping_nonempty_aux :
    ∀ (ops : List TypingOp) (reg : TypingReg),
      (∀ p ∈ reg, p.2 ≠ ([] : List String)) →
      ∀ p ∈ ops.foldl applyTypingOp reg, p.2 ≠ ([] : List String) := by
  intro ops
  induction ops with
  | nil => intro reg h; simpa using h
  | cons op rest ih =>
    intro reg h
    simp only [List.foldl_cons]
    apply ih
    cases op with
    | setT cu target b => exact setTyping_preserves_nonempty cu reg target b h
    | clearAll => intro p hp; simp [applyTypingOp] at hp

/-- C8: in every reachable typing registry no key maps to an empty set — keys
are pruned, not left present-with-empty-set — and `setTyping` with
`isTyping = false` on an absent key leaves the registry unchanged. -/
theorem typingRegistry_invariant (ops : List TypingOp) (k : String) (v : List String)
    (cu : Option String) (reg : TypingReg)
    (hmem : (k, v) ∈ runTyping ops) (habs : hasK reg k = false) :
    v ≠ ([] : List String) ∧ setTyping cu reg k false = reg := by
  constructor
  · exact runTyping_nonempty_aux ops [] (by simp) (k, v) hmem
  · have hcur : lookupD reg k ([] : List String) = [] := lookupD_of_hasK_false reg k [] habs
    simp [setTyping, hcur, removeMem, dropK_of_hasK_false reg k habs]

/-- Witness for C8: one `setTyping(…, true)` call reaches a registry whose only
key has a non-empty set, and `setTyping(…, false)` on the empty registry is a
no-op. -/
theorem typingRegistry_invariant_witness :
    ("bob", ["alice"]) ∈ runTyping [TypingOp.setT (some "alice") "bob" true] ∧
    hasK ([] : TypingReg) "bob" = false ∧
    (["alice"] ≠ ([] : List String) ∧ setTyping (some "alice") [] "bob" false = []) :=
  ⟨by decide, rfl,
   typingRegistry_invariant [TypingOp.setT (some "alice") "bob" true] "bob" ["alice"]
     (some "alice") [] (by decide) rfl⟩

theorem not_mem_setTyping_false (u : String) (reg : TypingReg) (target : String) :
    u ∉ lookupD (setTyping (some u) reg target false) target [] := by
  simp only [setTyping, Option.getD_some, Bool.false_eq_true, if_false]
  split
  · rw [lookupD_dropK_self]
    simp
  · rw [lookupD_putK_self]
    intro hmem
    rcases List.mem_filter.mp hmem with ⟨_, h2⟩
    simp at h2

/-- C9: after an input event registers the local user as typing, the scheduled
3-second expiry firing with no further input removes the user from that
typing set of that conversation; and each input event replaces (cancels) the
previously pending expiry with a fresh one for its target. -/
theorem typing_auto_expiry (u : String) (s : TypingClient) (target : String)
    (ht : target ≠ "") :
    (handleInputChange (some u) s target).pending = some target ∧
    u ∉ lookupD (fireTypingTimeout (some u) (handleInputChange (some u) s target)).reg
        target [] := by
  have h1 : handleInputChange (some u) s target
      = { reg := setTyping (some u) s.reg target true, pending := some target } := by
    unfold handleInputChange
    rw [if_neg ht]
  rw [h1]
  refine ⟨rfl, ?_⟩
  show u ∉ lookupD (setTyping (some u) (setTyping (some u) s.reg target true) target false)
      target []
  exact not_mem_setTyping_false u _ target

/-- Witness for C9 on the empty registry. -/
theorem typing_auto_expiry_witness :
    ("bob" : String) ≠ "" ∧
    ((handleInputChange (some "alice") ⟨[], none⟩ "bob").pending = some "bob" ∧
     "alice" ∉ lookupD (fireTypingTimeout (some "alice")
        (handleInputChange (some "alice") ⟨[], none⟩ "bob")).reg "bob" []) :=
  ⟨by decide, typing_auto_expiry "alice" ⟨[], none⟩ "bob" (by decide)⟩

/-! ### Rejoining a channel (C10) -/

/-- C10: a successful `joinChannel` on a channel already in the channel list
leaves channels, the message store and the read positions exactly as they were;
the empty sequence and zero cursor are installed only when the channel was not
in the list. -/
theorem joinChannel_rejoin (u ch : String) (channels : List String) (messages : Store)
    (lrp : ReadPos) :
    (channels.contains ch = true →
      joinChannel (some u) channels messages lrp ch "success"
        = Except.ok (channels, messages, lrp)) ∧
    (channels.contains ch = false →
      joinChannel (some u) channels messages lrp ch "success"
        = Except.ok (channels ++ [ch], putK messages ch [], putK lrp ch 0)) := by
  constructor
  · intro h
    show (if ("success" : String) = "success" then
        Except.ok (if channels.contains ch then (channels, messages, lrp)
          else (channels ++ [ch], putK messages ch [], putK lrp ch 0))
        else Except.error "Failed to join channel")
      = Except.ok (channels, messages, lrp)
    rw [if_pos rfl, if_pos h]
  · intro h
    show (if ("success" : String) = "success" then
        Except.ok (if channels.contains ch then (channels, messages, lrp)
          else (channels ++ [ch], putK messages ch [], putK lrp ch 0))
        else Except.error "Failed to join channel")
      = Except.ok (channels ++ [ch], putK messages ch [], putK lrp ch 0)
    have hn : ¬ (channels.contains ch = true) := by
      rw [h]
      exact Bool.false_ne_true
    rw [if_pos rfl, if_neg hn]

/-- Witness for C10: rejoining `general` preserves its history and cursor. -/
theorem joinChannel_rejoin_witness :
    (["general"] : List String).contains "general" = true ∧
    joinChannel (some "alice") ["general"] [("general", [msgCarol])] [("general", 1)]
        "general" "success"
      = Except.ok (["general"], ([("general", [msgCarol])] : Store),
          ([("general", 1)] : ReadPos)) :=
  ⟨by decide,
   (joinChannel_rejoin "alice" "general" ["general"] [("general", [msgCarol])]
      [("general", 1)]).1 (by decide)⟩

/-! ### The synchronization loop after logout (C2) -/

theorem timerActive_stays_off :
    ∀ (tr : List LoopEvent) (s : LoopState), s.timerActive = false →
      (∀ v, LoopEvent.login v ∉ tr) → (runLoop s tr).timerActive = false := by
  intro tr
  induction tr with
  | nil => intro s h _; exact h
  | cons e rest ih =>
    intro s h hnl
    simp only [runLoop, List.foldl_cons]
    apply ih (stepEv s e)
    · cases e with
      | login v => exact absurd (List.mem_cons_self _ _) (hnl v)
      | tick => simp [stepEv, h]
      | resolve res =>
        cases hin : s.inflight with
        | some u2 => simp [stepEv, hin, h]
        | none => simp [stepEv, hin, h]
      | logoutEv => rfl
    · intro v hv
      exact hnl v (List.mem_cons_of_mem _ hv)

/-- C2 as stated is refuted: after `login`, a `tick` that starts a fetch, and
`logout`, the in-flight fetch resolving successfully still mutates the store —
the store cleared by logout does not remain empty even though no new identity
was created. -/
theorem syncLoop_inflight_counterexample :
    (runLoop initLoopState [LoopEvent.login "alice", LoopEvent.tick, LoopEvent.logoutEv,
        LoopEvent.resolve (FetchResult.ok "success" (some [msgBob]))]).user = none ∧
    (runLoop initLoopState [LoopEvent.login "alice", LoopEvent.tick, LoopEvent.logoutEv,
        LoopEvent.resolve (FetchResult.ok "success" (some [msgBob]))]).store ≠ [] := by
  exact ⟨rfl, by decide⟩

/-- C2 amended: logout cancels the polling timer — after logout, as long as no
new login occurs, the timer stays cancelled so no further cycle starts — but an
in-flight fetch is NOT discarded: when it resolves successfully its batch is
merged into the (cleared) store. -/
theorem syncLoop_logout_amended (s : LoopState) (tr : List LoopEvent) (u : String)
    (batch : List Message)
    (hnl : ∀ v, LoopEvent.login v ∉ tr) (hin : s.inflight = some u) :
    (runLoop (stepEv s LoopEvent.logoutEv) tr).timerActive = false ∧
    (stepEv (stepEv s LoopEvent.logoutEv)
        (LoopEvent.resolve (FetchResult.ok "success" (some batch)))).store
      = (mergeBatch u [] batch).1 := by
  constructor
  · exact timerActive_stays_off tr _ rfl hnl
  · simp [stepEv, hin, pollCycle]

/-- Witness for the amended C2: a concrete logged-in state with a fetch in
flight; after logout a tick is a no-op and the resolving fetch merges into the
cleared store. -/
theorem syncLoop_logout_amended_witness :
    (∀ v, LoopEvent.login v ∉ ([LoopEvent.tick] : List LoopEvent)) ∧
    inflightState.inflight = some "alice" ∧
    ((runLoop (stepEv inflightState LoopEvent.logoutEv) [LoopEvent.tick]).timerActive
        = false ∧
     (stepEv (stepEv inflightState LoopEvent.logoutEv)
        (LoopEvent.resolve (FetchResult.ok "success" (some [msgBob])))).store
       = (mergeBatch "alice" [] [msgBob]).1) :=
  ⟨by intro v h; simp at h, rfl,
   syncLoop_logout_amended inflightState [LoopEvent.tick] "alice" [msgBob]
     (by intro v h; simp at h) rfl⟩
